import Mathlib

/-!
Verification of the EduGrade backend (src/app.py) against its
natural-language specification.

Shallow embedding conventions:
* Python dicts are association lists over `String` keys; assignment replaces
  the value in place (or appends a fresh key at the end), `del` removes the
  entry, iteration follows list order — matching CPython dict semantics.
* JSON-serializable Python values are the inductive type `JVal`
  (a mutual inductive so that decidable equality is derivable).
* `datetime` instants are rational numbers of seconds; `timedelta(seconds=s)`
  is addition of `s`, comparisons are the rational order.
* AES-256-GCM is modelled as an idealized authenticated cipher: a ciphertext
  blob records the nonce, the key it was produced under and the serialized
  payload; decryption authenticates by comparing keys and fails (returns
  `none`, standing for the raised `InvalidTag`) under any other key.
  Serialization (`json.dumps`/`json.loads`) and base64 transport encoding are
  bijections on the values that occur and are modelled as the identity on the
  `JVal` AST.  Keys are abstract values (`Nat`); only their equality matters.
* PBKDF2 pin hashing is idealized as a collision-free keyed digest: the
  stored hash records the salt and determines the pin, and verification
  re-derives with the stored salt, so two digests agree exactly when the
  pins agree.
* Randomness (`secrets.randbelow`, `os.urandom`, token generation) is passed
  in explicitly: an oracle `Nat → Nat` of successive draws, or a concrete
  parameter for a single nonce/token.
-/

namespace EduGrade

/-- Python dict lookup `d.get(k)` over an association list. -/
def lookupA {V : Type} : List (String × V) → String → Option V
  | [], _ => none
  | (k, v) :: tl, key => if k = key then some v else lookupA tl key

/-- Python dict assignment `d[k] = v`: replace in place, else append. -/
def insertA {V : Type} : List (String × V) → String → V → List (String × V)
  | [], key, val => [(key, val)]
  | (k, v) :: tl, key, val =>
      if k = key then (k, val) :: tl else (k, v) :: insertA tl key val

/-- Python dict deletion `del d[k]` (removes the unique entry for `k`). -/
def eraseA {V : Type} : List (String × V) → String → List (String × V)
  | [], _ => []
  | (k, v) :: tl, key => if k = key then tl else (k, v) :: eraseA tl key

/-- In-place mutation of the entry stored under `key` (Python mutates the
dict value object; the key keeps its position). -/
def updateA {V : Type} : List (String × V) → String → (V → V) → List (String × V)
  | [], _, _ => []
  | (k, v) :: tl, key, f =>
      if k = key then (k, f v) :: tl else (k, v) :: updateA tl key f

mutual
/-- A JSON-serializable Python value (`None`, `bool`, number, `str`, `list`,
`dict`).  Numbers are rationals, covering the ints and the 0.5-style floats
stored by the application. -/
inductive JVal where
  | null
  | bool (b : Bool)
  | num (q : ℚ)
  | str (s : String)
  | arr (xs : JArr)
  | obj (fields : JObj)
deriving DecidableEq

/-- A JSON array (list of `JVal`). -/
inductive JArr where
  | nil
  | cons (hd : JVal) (tl : JArr)
deriving DecidableEq

/-- A JSON object: ordered fields, unique string keys. -/
inductive JObj where
  | nil
  | cons (key : String) (val : JVal) (tl : JObj)
deriving DecidableEq
end

/-- Build a `JArr` from a Lean list literal. -/
def JArr.ofList : List JVal → JArr
  | [] => .nil
  | x :: xs => .cons x (JArr.ofList xs)

/-- View a `JArr` as a Lean list (Python `for x in lst` iteration order). -/
def JArr.toList : JArr → List JVal
  | .nil => []
  | .cons x tl => x :: JArr.toList tl

/-- Build a `JObj` from a list of key-value pairs. -/
def JObj.ofList : List (String × JVal) → JObj
  | [] => .nil
  | (k, v) :: tl => .cons k v (JObj.ofList tl)

/-- Python `d.get(k)` on a JSON object. -/
def JObj.get : JObj → String → Option JVal
  | .nil, _ => none
  | .cons k v tl, key => if k = key then some v else JObj.get tl key

/-- Python `d.get(k, default)` on a JSON value (non-dicts have no keys). -/
def jGetD (v : JVal) (key : String) (dflt : JVal) : JVal :=
  match v with
  | .obj fs => (fs.get key).getD dflt
  | _ => dflt

/-- Python `d.get(k)` on a JSON value, `none` when absent or not a dict. -/
def jGet (v : JVal) (key : String) : Option JVal :=
  match v with
  | .obj fs => fs.get key
  | _ => none

/-- Elements of a JSON value assumed to be an array (the app only ever stores
arrays in the iterated fields; iterating anything else raises in Python and
does not occur). -/
def jElems (v : JVal) : List JVal :=
  match v with
  | .arr xs => xs.toList
  | _ => []

/-- Python truthiness of a JSON value (`if data:`). -/
def jtruthy : JVal → Bool
  | .null => false
  | .bool b => b
  | .num q => q ≠ 0
  | .str s => s ≠ ""
  | .arr xs => xs ≠ .nil
  | .obj fs => fs ≠ .nil

/-- The empty dict `\x7b\x7d` — the sentinel `decrypt_user_data` and
`get_user_data` return on failure. -/
def emptyDoc : JVal := .obj .nil

-- ============ ENCRYPTION (src/app.py lines 131-213) ============

/-- An AES-256-GCM ciphertext blob as stored (base64 of nonce plus
ciphertext).  Idealized: it records the 96-bit nonce, the key used, and the
JSON payload that was serialized and encrypted. -/
structure Blob where
  nonce : ℕ
  key : ℕ
  payload : JVal
deriving DecidableEq

/-- Source `encrypt_user_data(data, key)`: serialize to JSON, draw a fresh
96-bit nonce, AES-GCM-encrypt, return base64(nonce || ciphertext).  The
fresh nonce is passed explicitly. -/
def encrypt_user_data (data : JVal) (key : ℕ) (nonce : ℕ) : Blob :=
  ⟨nonce, key, data⟩

/-- The raw `AESGCM(key).decrypt` call: authenticated decryption, `none`
models the `InvalidTag` exception raised when the key (hence the tag) does
not match. -/
def aesgcmDecrypt (blob : Blob) (key : ℕ) : Option JVal :=
  if blob.key = key then some blob.payload else none

/-- Source `decrypt_user_data(encrypted_data, key)`: base64-decode, split
nonce and ciphertext, AES-GCM-decrypt, parse JSON; any exception is caught
and the empty dict is returned. -/
def decrypt_user_data (blob : Blob) (key : ℕ) : JVal :=
  (aesgcmDecrypt blob key).getD emptyDoc

/-- Source `encrypt_share_data(data, key)` — byte-for-byte the same algorithm
as `encrypt_user_data`, used with the master share key. -/
def encrypt_share_data (data : JVal) (key : ℕ) (nonce : ℕ) : Blob :=
  ⟨nonce, key, data⟩

/-- Source `decrypt_share_data(encrypted_data, key)` — same algorithm as
`decrypt_user_data`, exceptions caught and mapped to the empty dict. -/
def decrypt_share_data (blob : Blob) (key : ℕ) : JVal :=
  (aesgcmDecrypt blob key).getD emptyDoc

-- ============ DATA MODEL (persisted store and process memory) ============

/-- Instants and durations, in whole seconds.  `datetime` supports fractional
seconds, but every comparison and duration in scope is order-theoretic and
additive, so integer instants embed all the behaviour the claims mention. -/
abbrev Time := ℤ

/-- An account record stored under its e-mail in `db["users"]`. -/
structure User where
  id : String
  username : String
  email : String
  password_hash : String
  encryption_salt : Option String
  created_at : Time
deriving DecidableEq

/-- A session record stored under its token in `db["sessions"]`. -/
structure Session where
  user_id : String
  created_at : Time
  expires_at : Time
deriving DecidableEq

/-- A persisted per-user document: either the encrypted form
(a dict with `encrypted: True` and the base64 blob) or a legacy plaintext
dict from before encryption existed. -/
inductive Stored where
  | encrypted (blob : Blob)
  | legacy (data : JVal)
deriving DecidableEq

/-- A stored PIN hash `salt:hash` (hex).  Idealized PBKDF2: the digest is
determined by the pin, and since verification re-derives with the stored
salt, digest equality is pin equality (collision-freeness idealization). -/
structure PinHash where
  salt : ℕ
  pin : String
deriving DecidableEq

/-- Source `hash_pin(pin)`: PBKDF2-HMAC-SHA256, 50000 iterations, a fresh
16-byte salt (passed explicitly here). -/
def hash_pin (pin : String) (salt : ℕ) : PinHash := ⟨salt, pin⟩

/-- Source `verify_pin(stored_hash, pin)`: re-derive with the stored salt and
compare digests in constant time; malformed input is caught and yields
`False`. -/
def verify_pin (stored : PinHash) (pin : String) : Bool := stored.pin == pin

/-- One entry of a share's `students` map (`student_id -> pin_hash, name`). -/
structure StudentPinEntry where
  pin_hash : PinHash
  name : String
deriving DecidableEq

/-- A class share record stored under its token in `db["class_shares"]`. -/
structure Share where
  user_id : String
  class_id : String
  class_name : String
  teacher_name : String
  created_at : Time
  expires_at : Option Time
  active : Bool
  visibility : JVal
  students : List (String × StudentPinEntry)
  encrypted_data : Option Blob
deriving DecidableEq

/-- The persisted JSON database (the flat file behind `load_db`/`save_db`). -/
structure DB where
  users : List (String × User)
  sessions : List (String × Session)
  user_data : List (String × Stored)
  class_shares : List (String × Share)
deriving DecidableEq

/-- One entry of the decrypted-data cache `user_data_cache`. -/
structure CacheEntry where
  data : JVal
  user_id : String
  last_heartbeat : Time
deriving DecidableEq

/-- Process memory: the key vault `encryption_keys` and the decrypted-data
cache `user_data_cache`. -/
structure Mem where
  encryption_keys : List (String × ℕ)
  user_data_cache : List (String × CacheEntry)
deriving DecidableEq

/-- Source constant `HEARTBEAT_TIMEOUT = 60` seconds. -/
def HEARTBEAT_TIMEOUT : Time := 60

/-- Source `get_encryption_key_for_session(token)`. -/
def get_encryption_key_for_session (m : Mem) (token : String) : Option ℕ :=
  lookupA m.encryption_keys token

/-- Source `clear_session_cache(token)`: evict both the cached decrypted
document and the in-memory encryption key for the token. -/
def clear_session_cache (m : Mem) (token : String) : Mem :=
  ⟨eraseA m.encryption_keys token, eraseA m.user_data_cache token⟩

-- ============ DOCUMENT STORE AND CACHE (src/app.py lines 427-496) ============

/-- Source `save_user_data(user_id, data, encryption_key, session_token)`:
raises `ValueError` (`none` here) without a key; otherwise encrypts and
stores the document, and — only if a truthy session token is given and a
cache entry for it already exists — updates that entry's data and
heartbeat.  The fresh nonce for the encryption is passed explicitly. -/
def save_user_data (db : DB) (m : Mem) (user_id : String) (data : JVal)
    (encryption_key : Option ℕ) (session_token : Option String)
    (nonce : ℕ) (now : Time) : Option (DB × Mem) :=
  match encryption_key with
  | none => none
  | some k =>
    let encrypted := encrypt_user_data data k nonce
    let db1 := { db with user_data := insertA db.user_data user_id (.encrypted encrypted) }
    let m1 :=
      match session_token with
      | some tok =>
        if tok ≠ "" ∧ (lookupA m.user_data_cache tok).isSome then
          { m with user_data_cache :=
              (updateA m.user_data_cache tok
                (fun e => { e with data := data, last_heartbeat := now })) }
        else m
      | none => m
    some (db1, m1)

/-- Source `get_user_data(user_id, encryption_key)`: read the stored entry
(defaulting to the empty dict), decrypt if encrypted and a key is at hand
(missing key yields the empty dict), return legacy plaintext as is. -/
def get_user_data (db : DB) (user_id : String) (encryption_key : Option ℕ) : JVal :=
  match lookupA db.user_data user_id with
  | none => emptyDoc
  | some (.encrypted blob) =>
    match encryption_key with
    | some k => decrypt_user_data blob k
    | none => emptyDoc
  | some (.legacy d) => d

/-- Source `get_user_data_cached(user_id, session_token, encryption_key)`.
Returns the document, the updated memory, and whether the persisted store
was loaded (`true` on a cache miss or an expired entry). -/
def get_user_data_cached (db : DB) (m : Mem) (user_id : String)
    (session_token : String) (encryption_key : Option ℕ) (now : Time) :
    JVal × Mem × Bool :=
  let loadAndCache : Mem → JVal × Mem × Bool := fun m0 =>
    let data := get_user_data db user_id encryption_key
    let m1 :=
      if jtruthy data ∧ session_token ≠ "" then
        { m0 with user_data_cache :=
            insertA m0.user_data_cache session_token ⟨data, user_id, now⟩ }
      else m0
    (data, m1, true)
  match lookupA m.user_data_cache session_token with
  | some e =>
    if now - e.last_heartbeat < HEARTBEAT_TIMEOUT then (e.data, m, false)
    else loadAndCache { m with user_data_cache := eraseA m.user_data_cache session_token }
  | none => loadAndCache m

-- ============ SESSIONS (src/app.py lines 374-398, 681-724, 916-952) ============

/-- The user view `get_user_from_token` returns (id, username, email). -/
structure UserInfo where
  id : String
  username : String
  email : String
deriving DecidableEq

/-- The source's linear scan of `db["users"].items()` for a record whose
`id` field matches (first match wins). -/
def findUserById (db : DB) (user_id : String) : Option User :=
  (db.users.find? (fun p => p.2.id == user_id)).map (·.2)

/-- Source `get_user_from_token(token)`: `None` on an empty token, an unknown
token, or a session strictly past its expiry; otherwise the owning user's
public record.  Purely a read — it never writes the store. -/
def get_user_from_token (db : DB) (token : String) (now : Time) : Option UserInfo :=
  if token = "" then none
  else
    match lookupA db.sessions token with
    | none => none
    | some s =>
      if s.expires_at < now then none
      else
        match findUserById db s.user_id with
        | some u => some ⟨u.id, u.username, u.email⟩
        | none => none

/-- The store-and-memory pair `get_user_from_token` leaves behind: the
function only calls `load_db`, never `save_db`, so the store is returned
unchanged alongside the result. -/
def resolveSessionOp (db : DB) (token : String) (now : Time) :
    Option UserInfo × DB := (get_user_from_token db token now, db)

/-- Source `logout_user(token)`: delete the session if present, then clear
the session cache (decrypted data and encryption key). -/
def logout_user (db : DB) (m : Mem) (token : String) : DB × Mem :=
  let db1 :=
    if (lookupA db.sessions token).isSome then
      { db with sessions := eraseA db.sessions token }
    else db
  (db1, clear_session_cache m token)

/-- The share-sweep step of `cleanup_expired_sessions` applied to one share:
inactive shares are deleted; active expired shares are marked inactive and
deleted once a day past expiry; the 30-day branch of the source is kept
verbatim (it is unreachable, as it requires `now ≤ exp` and
`exp + 30 days < now`).  Returns the possibly-mutated share and whether it
is scheduled for deletion. -/
def sweepShare (now : Time) (s : Share) : Share × Bool :=
  if !s.active then (s, true)
  else
    match s.expires_at with
    | none => (s, false)
    | some exp =>
      if exp < now then ({ s with active := false }, decide (exp + 86400 < now))
      else (s, decide (exp + 2592000 < now))

/-- Source `cleanup_expired_sessions()`: delete expired sessions and clear
their caches and keys; clear caches with no heartbeat for more than twice
the timeout; mark or delete expired and inactive shares. -/
def cleanup_expired_sessions (db : DB) (m : Mem) (now : Time) : DB × Mem :=
  let expired := (db.sessions.filter (fun p => decide (p.2.expires_at < now))).map (·.1)
  let db1 := expired.foldl (fun d t => { d with sessions := eraseA d.sessions t }) db
  let m1 := expired.foldl clear_session_cache m
  let stale := (m1.user_data_cache.filter
      (fun p => decide (HEARTBEAT_TIMEOUT * 2 < now - p.2.last_heartbeat))).map (·.1)
  let m2 := stale.foldl clear_session_cache m1
  let sweptShares := db1.class_shares.map (fun p => (p.1, sweepShare now p.2))
  let kept := (sweptShares.filter (fun p => !p.2.2)).map (fun p => (p.1, p.2.1))
  ({ db1 with class_shares := kept }, m2)

/-- Outcomes of `DELETE /api/account`. -/
inductive DeleteAccountResult
  | authRequired
  | ok
deriving DecidableEq

/-- Source `api_delete_account` (with its `login_required` gate): resolve the
session; delete the user's document, every session of the user, and the
account record.  The in-memory state is not touched by the handler. -/
def api_delete_account (db : DB) (m : Mem) (token : String) (now : Time) :
    DeleteAccountResult × DB × Mem :=
  match get_user_from_token db token now with
  | none => (.authRequired, db, m)
  | some u =>
    let db1 := { db with user_data := eraseA db.user_data u.id }
    let sessionsToDelete := (db1.sessions.filter (fun p => p.2.user_id == u.id)).map (·.1)
    let db2 := sessionsToDelete.foldl (fun d t => { d with sessions := eraseA d.sessions t }) db1
    let db3 := { db2 with users := eraseA db2.users u.email }
    (.ok, db3, m)

-- ============ RATE LIMITING (src/app.py lines 44-84) ============

/-- Source table `RATE_LIMITS`: endpoint class to (ceiling, window seconds). -/
def RATE_LIMITS : List (String × ℕ × Time) :=
  [("login", (5, 60)), ("register", (3, 60)), ("data_write", (30, 60)),
   ("data_read", (60, 60)), ("pin_verify", (5, 60)), ("share_manage", (20, 60)),
   ("default", (100, 60))]

/-- Python `min` over a nonempty list (the empty case never occurs at the
call site, where the list length is at least the positive ceiling). -/
def listMin : List Time → Time
  | [] => 0
  | x :: xs => xs.foldl min x

/-- Source `check_rate_limit` acting on the timestamp sequence tracked for
one (client IP, endpoint class): drop entries at or before `now - window`,
reject with the seconds until the oldest surviving entry leaves the
window plus one when the ceiling is reached, else append `now`.  Python's
`int()` truncation is the identity on the integral values modelled here.
Returns (allowed, retry seconds, new sequence). -/
def check_rate_limit (max_requests : ℕ) (time_window : Time)
    (stored : List Time) (now : Time) : Bool × ℤ × List Time :=
  let window_start := now - time_window
  let recent := stored.filter (fun ts => decide (window_start < ts))
  if max_requests ≤ recent.length then
    let oldest := listMin recent
    (false, oldest + time_window - now + 1, recent)
  else
    (true, 0, recent ++ [now])

/-- The configuration lookup of `check_rate_limit(endpoint_type)`: unknown
classes fall back to the default limit. -/
def check_rate_limit_for (endpoint_type : String) (stored : List Time)
    (now : Time) : Bool × ℤ × List Time :=
  let cfg := (lookupA RATE_LIMITS endpoint_type).getD (100, 60)
  check_rate_limit cfg.1 cfg.2 stored now

-- ============ PIN GENERATION (src/app.py lines 258-268) ============

/-- The zero-padded six-digit decimal rendering `f"...:06d"` of a number
below one million. -/
def toPin (n : ℕ) : String :=
  String.mk [Nat.digitChar (n / 100000 % 10), Nat.digitChar (n / 10000 % 10),
    Nat.digitChar (n / 1000 % 10), Nat.digitChar (n / 100 % 10),
    Nat.digitChar (n / 10 % 10), Nat.digitChar (n % 10)]

/-- The pin rendered from the i-th output of `secrets.randbelow(1000000)`
under the randomness oracle `rng` (reduced modulo one million so that every
oracle is admissible). -/
def drawPin (rng : ℕ → ℕ) (i : ℕ) : String := toPin (rng i % 1000000)

/-- The retry loop of `generate_unique_pin` with `fuel` draws left, drawing
from oracle position `i`; a drawn pin already in `existing` is rejected. -/
def genPinLoop (existing : List String) (rng : ℕ → ℕ) : ℕ → ℕ → Option (String × ℕ)
  | 0, _ => none
  | fuel + 1, i =>
    let pin := drawPin rng i
    if pin ∈ existing then genPinLoop existing rng fuel (i + 1)
    else some (pin, i + 1)

/-- Source `generate_unique_pin(existing_pins)`: up to 1000 draws of a
six-digit pin rejecting collisions with `existing_pins`; raises
`ValueError` (`none` here) once the budget is spent.  Returns the pin and
the next oracle position. -/
def generate_unique_pin (existing : List String) (rng : ℕ → ℕ) (i : ℕ) :
    Option (String × ℕ) :=
  genPinLoop existing rng 1000 i

-- ============ SHARE SNAPSHOTS (src/app.py lines 270-319) ============

/-- The scan `for c in user_data.get('classes', [])` for the first class
whose `id` field equals `class_id`.  A match necessarily is a dict carrying
an `id` key, hence truthy, so the source's `if not cls` is exactly the
`none` case. -/
def findClass (user_data : JVal) (class_id : String) : Option JVal :=
  (jElems (jGetD user_data "classes" (.arr .nil))).find?
    (fun c => jGet c "id" == some (.str class_id))

/-- The literal default `plusMinusGradeSettings` dict of the source. -/
def plusMinusDefault : JVal :=
  .obj (JObj.ofList
    [("startGrade", .num 3), ("plusValue", .num (1/2)), ("minusValue", .num (1/2))])

/-- Source `build_share_snapshot(user_data, class_id)`: `None` when the class
is absent, else the snapshot dict of students, categories, subjects and
grading settings. -/
def build_share_snapshot (user_data : JVal) (class_id : String) : Option JVal :=
  match findClass user_data class_id with
  | none => none
  | some cls => some (.obj (JObj.ofList
      [("students", jGetD cls "students" (.arr .nil)),
       ("categories", jGetD user_data "categories" (.arr .nil)),
       ("subjects", jGetD cls "subjects" (.arr .nil)),
       ("plusMinusGradeSettings", jGetD user_data "plusMinusGradeSettings" plusMinusDefault)]))

/-- The snapshot-refresh step of `update_active_shares_for_user` on one
share: rebuild and re-encrypt the snapshot and refresh the class name (the
app stores class names as strings; a missing name keeps the old one, as
does `c.get('name', ...)`). -/
def syncShareSnapshot (user_data : JVal) (mk nonce : ℕ) (s : Share) : Share :=
  match build_share_snapshot user_data s.class_id with
  | none => s
  | some snap =>
    let s1 := { s with encrypted_data := some (encrypt_share_data snap mk nonce) }
    match findClass user_data s.class_id with
    | some c =>
      (match jGet c "name" with
       | some (.str nm) => { s1 with class_name := nm }
       | _ => s1)
    | none => s1

/-- Source `update_active_shares_for_user(user_id, user_data)`: for each
share of the user that is still marked active, deactivate it if expired,
else rebuild its encrypted snapshot with the master key `mk` (one fresh
nonce per share, drawn from `nonces` by position). -/
def update_active_shares_for_user (db : DB) (user_id : String) (user_data : JVal)
    (mk : ℕ) (nonces : ℕ → ℕ) (now : Time) : DB :=
  let shares := db.class_shares.enum.map (fun p =>
    let i := p.1
    let t := p.2.1
    let s := p.2.2
    (t, if s.user_id ≠ user_id ∨ s.active = false then s
        else
          match s.expires_at with
          | some exp =>
            if exp < now then { s with active := false }
            else syncShareSnapshot user_data mk (nonces i) s
          | none => syncShareSnapshot user_data mk (nonces i) s))
  { db with class_shares := shares }

-- ============ DATA HANDLERS (src/app.py lines 957-1001) ============

/-- One entry of the default `gradePercentageRanges` list. -/
def gradeRange (g mn mx : ℚ) : JVal :=
  .obj (JObj.ofList [("grade", .num g), ("minPercent", .num mn), ("maxPercent", .num mx)])

/-- The literal default document `api_get_data` constructs when the lookup
yields no data (the same dict `register_user` stores for a new account). -/
def defaultUserData : JVal :=
  .obj (JObj.ofList
    [("teacherName", .str ""),
     ("currentClassId", .null),
     ("classes", .arr .nil),
     ("categories", .arr .nil),
     ("students", .arr .nil),
     ("participationSettings",
       .obj (JObj.ofList [("plusValue", .num (1/2)), ("minusValue", .num (1/2))])),
     ("plusMinusGradeSettings", plusMinusDefault),
     ("tutorial",
       .obj (JObj.ofList [("completed", .bool false), ("neverShowAgain", .bool false)])),
     ("gradePercentageRanges", .arr (JArr.ofList
       [gradeRange 1 85 100, gradeRange 2 70 84, gradeRange 3 55 69,
        gradeRange 4 40 54, gradeRange 5 0 39]))])

/-- Outcomes of `GET /api/data`. -/
inductive GetDataResult
  | authRequired
  | ok (data : JVal)
  | serverError
deriving DecidableEq

/-- Source `api_get_data` (with its `login_required` gate; the rate-limit
gate is configuration and orthogonal): fetch through the cache; when the
result is falsy, build the default document and persist it encrypted,
then return it.  A missing encryption key makes `save_user_data` raise,
which the handler's `except` turns into a 500. -/
def api_get_data (db : DB) (m : Mem) (token : String) (now : Time) (nonce : ℕ) :
    GetDataResult × DB × Mem :=
  match get_user_from_token db token now with
  | none => (.authRequired, db, m)
  | some u =>
    let key := get_encryption_key_for_session m token
    let r := get_user_data_cached db m u.id token key now
    let user_data := r.1
    let m1 := r.2.1
    if jtruthy user_data then (.ok user_data, db, m1)
    else
      match save_user_data db m1 u.id defaultUserData key (some token) nonce now with
      | some (db1, m2) => (.ok defaultUserData, db1, m2)
      | none => (.serverError, db, m1)

-- ============ PIN VERIFICATION (src/app.py lines 1326-1390) ============

/-- The input test `not pin or len(pin) != 6 or not pin.isdigit()`, negated:
a nonempty string of exactly six digits. -/
def sixDigitPin (pin : String) : Bool :=
  !(pin == "") && pin.length == 6 && pin.toList.all Char.isDigit

/-- Outcomes of `POST /api/grades/(token)/verify` (body assumed present;
the 400 for a missing body precedes everything and is not modelled). -/
inductive PinVerifyResult
  | invalidPin
  | invalidAccessLink
  | accessRevoked
  | accessExpired
  | wrongPin
  | missingData
  | studentNotFound
  | ok (student_id : String) (name : String) (grades : JVal)
deriving DecidableEq

/-- Source `api_verify_pin(share_token)` with master key `mk`: pin-format
check, then share lookup, active flag, expiry, hash scan (first match; the
source then re-tests the matched id for truthiness, so an empty-string
student id falls through to `wrongPin`), snapshot decryption and student
extraction. -/
def api_verify_pin (db : DB) (mk : ℕ) (now : Time) (share_token pin : String) :
    PinVerifyResult :=
  if !sixDigitPin pin then .invalidPin
  else
    match lookupA db.class_shares share_token with
    | none => .invalidAccessLink
    | some share =>
      if !share.active then .accessRevoked
      else if (match share.expires_at with
               | some exp => decide (exp < now)
               | none => false) then .accessExpired
      else
        match (share.students.find? (fun p => verify_pin p.2.pin_hash pin)).map (·.1) with
        | none => .wrongPin
        | some sid =>
          if sid = "" then .wrongPin
          else
            match share.encrypted_data with
            | none => .missingData
            | some blob =>
              let snapshot := decrypt_share_data blob mk
              match (jElems (jGetD snapshot "students" (.arr .nil))).find?
                  (fun s => jGet s "id" == some (.str sid)) with
              | none => .studentNotFound
              | some sdata =>
                .ok sid
                  (match jGet sdata "name" with | some (.str nm) => nm | _ => "")
                  (jGetD sdata "grades" (.arr .nil))

-- ============ SHARE HANDLERS (src/app.py lines 1075-1264) ============

/-- Result of the per-student pin issuance loop in `api_create_share`:
budget exhaustion (the `ValueError`), a student record without an `id`
key (a `KeyError` in the source), or the pin-hash entries and cleartext
pins in student order. -/
inductive PinsOut where
  | exhausted
  | badStudent
  | ok (entries : List (String × StudentPinEntry)) (cleartext : List (String × String))
deriving DecidableEq

/-- The `for student in cls.get('students', [])` loop of `api_create_share`:
issue a fresh unique pin per student, hash it with a fresh salt (drawn from
`salts` by student count), and record the cleartext for the response. -/
def buildPins (rng salts : ℕ → ℕ) :
    List JVal → ℕ → List String → List (String × StudentPinEntry) →
    List (String × String) → PinsOut
  | [], _, _, entries, clear => .ok entries clear
  | s :: rest, i, existing, entries, clear =>
    match jGet s "id" with
    | some (.str sid) =>
      (match generate_unique_pin existing rng i with
       | none => .exhausted
       | some (pin, i1) =>
         let nm := match jGet s "name" with | some (.str x) => x | _ => ""
         buildPins rng salts rest i1 (pin :: existing)
           (insertA entries sid ⟨hash_pin pin (salts entries.length), nm⟩)
           (insertA clear sid pin))
    | _ => .badStudent

/-- Outcomes of `POST /api/share/class`. -/
inductive CreateShareResult
  | authRequired
  | invalidRequest
  | serverError
  | classNotFound
  | shareExists
  | pinSpaceExhausted
  | ok (share_token : String) (expires_at : Time) (pins : List (String × String × String))
deriving DecidableEq

/-- Source `api_create_share` (with its `login_required` gate): resolve the
session, validate the class id, fetch the document through the cache, find
the class, refuse if an active share for this (account, class) already
exists, issue pins, build and encrypt the snapshot with the master key
`mk`, store the new share under `share_token` and return the cleartext
pins.  Fresh randomness (share token, pin draws, salts, nonce) is passed
explicitly. -/
def api_create_share (db : DB) (m : Mem) (token : String) (now : Time)
    (mk : ℕ) (class_id : String) (expires_hours : ℤ) (visibility : JVal)
    (share_token : String) (rng salts : ℕ → ℕ) (nonce : ℕ) :
    CreateShareResult × DB × Mem :=
  match get_user_from_token db token now with
  | none => (.authRequired, db, m)
  | some u =>
    let key := get_encryption_key_for_session m token
    if class_id = "" then (.invalidRequest, db, m)
    else
      let r := get_user_data_cached db m u.id token key now
      let user_data := r.1
      let m1 := r.2.1
      if !jtruthy user_data then (.serverError, db, m1)
      else
        match findClass user_data class_id with
        | none => (.classNotFound, db, m1)
        | some cls =>
          if db.class_shares.any (fun p =>
              p.2.user_id == u.id && p.2.class_id == class_id && p.2.active) then
            (.shareExists, db, m1)
          else
            let students := jElems (jGetD cls "students" (.arr .nil))
            match buildPins rng salts students 0 [] [] [] with
            | .exhausted => (.pinSpaceExhausted, db, m1)
            | .badStudent => (.serverError, db, m1)
            | .ok entries clear =>
              match build_share_snapshot user_data class_id with
              | none => (.serverError, db, m1)
              | some snap =>
                let teacher :=
                  match jGet user_data "teacherName" with
                  | some (.str t) => if t = "" then u.username else t
                  | _ => u.username
                let expires := now + expires_hours * 3600
                let share : Share :=
                  { user_id := u.id, class_id := class_id,
                    class_name :=
                      (match jGet cls "name" with | some (.str nm) => nm | _ => ""),
                    teacher_name := teacher, created_at := now,
                    expires_at := some expires,
                    active := true, visibility := visibility,
                    students := entries,
                    encrypted_data := some (encrypt_share_data snap mk nonce) }
                let db1 := { db with class_shares := insertA db.class_shares share_token share }
                let pin_list := students.map (fun s =>
                  let sid := (match jGet s "id" with | some (.str x) => x | _ => "")
                  (sid, (match jGet s "name" with | some (.str nm) => nm | _ => ""),
                    (lookupA clear sid).getD ""))
                (.ok share_token expires pin_list, db1, m1)

/-- Outcomes of `PUT /api/share/class/(token)`. -/
inductive UpdateShareResult
  | authRequired
  | invalidRequest
  | shareNotFound
  | ok
deriving DecidableEq

/-- Source `api_update_share` (with its `login_required` gate): the model
restricts request bodies to the two recognized keys, so the source's
`not data` test is both fields being absent.  Ownership-checked; setting
`expires_hours` moves `expires_at` and re-activates the share
unconditionally. -/
def api_update_share (db : DB) (token : String) (now : Time)
    (share_token : String) (visibility : Option JVal) (expires_hours : Option ℤ) :
    UpdateShareResult × DB :=
  match get_user_from_token db token now with
  | none => (.authRequired, db)
  | some u =>
    if visibility.isNone ∧ expires_hours.isNone then (.invalidRequest, db)
    else
      match lookupA db.class_shares share_token with
      | none => (.shareNotFound, db)
      | some share =>
        if share.user_id ≠ u.id then (.shareNotFound, db)
        else
          let s1 := match visibility with
            | some v => { share with visibility := v }
            | none => share
          let s2 := match expires_hours with
            | some h => { s1 with expires_at := some (now + h * 3600), active := true }
            | none => s1
          (.ok, { db with class_shares := insertA db.class_shares share_token s2 })

/-- The `for student_id, student_info in share['students'].items()` loop of
`api_regenerate_pins`: re-issue a unique pin per entry, replacing the
stored hash in place; `none` models the `ValueError` on budget
exhaustion.  Returns the new entries and the response pin list. -/
def regenLoop (rng salts : ℕ → ℕ) :
    List (String × StudentPinEntry) → ℕ → List String →
    List (String × StudentPinEntry) → List (String × String × String) →
    Option (List (String × StudentPinEntry) × List (String × String × String))
  | [], _, _, accEntries, accPins => some (accEntries, accPins)
  | (sid, info) :: rest, i, existing, accEntries, accPins =>
    match generate_unique_pin existing rng i with
    | none => none
    | some (pin, i1) =>
      regenLoop rng salts rest i1 (pin :: existing)
        (accEntries ++ [(sid, { info with pin_hash := hash_pin pin (salts accEntries.length) })])
        (accPins ++ [(sid, info.name, pin)])

/-- Outcomes of `POST /api/share/class/(token)/regenerate-pins`. -/
inductive RegenPinsResult
  | authRequired
  | shareNotFound
  | shareNotActive
  | pinSpaceExhausted
  | ok (pins : List (String × String × String))
deriving DecidableEq

/-- Source `api_regenerate_pins` (with its `login_required` gate):
ownership-checked, active shares only; every student entry's `pin_hash` is
replaced by the hash of a freshly drawn unique pin. -/
def api_regenerate_pins (db : DB) (token : String) (now : Time)
    (share_token : String) (rng salts : ℕ → ℕ) :
    RegenPinsResult × DB :=
  match get_user_from_token db token now with
  | none => (.authRequired, db)
  | some u =>
    match lookupA db.class_shares share_token with
    | none => (.shareNotFound, db)
    | some share =>
      if share.user_id ≠ u.id then (.shareNotFound, db)
      else if !share.active then (.shareNotActive, db)
      else
        match regenLoop rng salts share.students 0 [] [] [] with
        | none => (.pinSpaceExhausted, db)
        | some (entries, pins) =>
          (.ok pins,
           { db with class_shares :=
               insertA db.class_shares share_token { share with students := entries } })

-- ============ CONCRETE SCENARIO STATES ============

/-- A sample account used by the session-resolution scenarios. -/
def c8user : User := ⟨"u1", "alice", "a@b.c", "h0", some "s0", 0⟩

/-- A store with one account and one session valid on [0, 3600]. -/
def c8db : DB := ⟨[("a@b.c", c8user)], [("tok", ⟨"u1", 0, 3600⟩)], [], []⟩

/-- The document stored before the write in the cache scenarios. -/
def c2oldDoc : JVal := .obj (JObj.cons "teacherName" (.str "old") .nil)

/-- The document being written in the cache scenarios. -/
def c2newDoc : JVal := .obj (JObj.cons "teacherName" (.str "new") .nil)

/-- A store holding one encrypted document under key 5. -/
def c2db : DB := ⟨[], [], [("u1", .encrypted ⟨0, 5, c2oldDoc⟩)], []⟩

/-- Memory with the session key present but no cache entry for the token. -/
def c2mem : Mem := ⟨[("tok", 5)], []⟩

/-- The store after writing `c2newDoc` with nonce 1 under key 5. -/
def c2dbAfter : DB := ⟨[], [], [("u1", .encrypted ⟨1, 5, c2newDoc⟩)], []⟩

/-- Memory with the session key and a live cache entry (heartbeat at 90). -/
def c2memWith : Mem := ⟨[("tok", 5)], [("tok", ⟨c2oldDoc, "u1", 90⟩)]⟩

/-- The account of the deletion scenario. -/
def c3user : User := ⟨"u1", "alice", "a@b.c", "h0", some "s0", 0⟩

/-- A store with one account, a live session and an encrypted document. -/
def c3db : DB := ⟨[("a@b.c", c3user)], [("tok", ⟨"u1", 0, 3600⟩)],
  [("u1", .encrypted ⟨0, 5, JVal.null⟩)], []⟩

/-- Memory holding the session's encryption key and a cache entry. -/
def c3mem : Mem := ⟨[("tok", 5)], [("tok", ⟨JVal.null, "u1", 0⟩)]⟩

/-- The account of the default-document scenario. -/
def c10user : User := ⟨"u1", "alice", "a@b.c", "h0", some "s0", 0⟩

/-- A store whose document is encrypted under key 99 — unreadable with the
session key 5, so the decrypted lookup yields the empty sentinel. -/
def c10db : DB := ⟨[("a@b.c", c10user)], [("tok", ⟨"u1", 0, 3600⟩)],
  [("u1", .encrypted ⟨0, 99, JVal.null⟩)], []⟩

/-- Memory holding session key 5 and no cache entry. -/
def c10mem : Mem := ⟨[("tok", 5)], []⟩

/-- A pin entry whose (idealized) hash is of the pin 123456. -/
def c4entry : StudentPinEntry := ⟨⟨0, "123456"⟩, "Ann"⟩

/-- An active, unexpired share with one student. -/
def c4shareActive : Share := ⟨"u1", "c1", "Class 1", "T", 0, some 1000, true,
  JVal.null, [("st1", c4entry)], some ⟨0, 9, JVal.null⟩⟩

/-- A revoked (inactive) share. -/
def c4shareInactive : Share := ⟨"u1", "c2", "Class 2", "T", 0, some 1000, false,
  JVal.null, [], none⟩

/-- An active share already past its expiry instant 10. -/
def c4shareExpired : Share := ⟨"u1", "c3", "Class 3", "T", 0, some 10, true,
  JVal.null, [], none⟩

/-- A store exposing the three share states to PIN verification. -/
def c4db : DB := ⟨[], [], [],
  [("sA", c4shareActive), ("sI", c4shareInactive), ("sE", c4shareExpired)]⟩

/-- The account of the deletion frame scenario. -/
def c9user : User := ⟨"u9", "bob", "b@b.c", "h0", some "s0", 0⟩

/-- A share owned by the account about to be deleted. -/
def c9share : Share := ⟨"u9", "c1", "C", "T", 0, some 100000, true, JVal.null,
  [("st1", ⟨⟨0, "222222"⟩, "Bea"⟩)], some ⟨0, 9, JVal.null⟩⟩

/-- A store with the account, its session, its document and its share. -/
def c9db : DB := ⟨[("b@b.c", c9user)], [("tok9", ⟨"u9", 0, 3600⟩)],
  [("u9", .encrypted ⟨0, 5, JVal.null⟩)], [("s9", c9share)]⟩

/-- Memory for the deletion frame scenario. -/
def c9mem : Mem := ⟨[("tok9", 5)], []⟩

/-- The number of active shares stored for one (account, class) pair — the
measure of the claimed at-most-one invariant. -/
def activeSharesFor (db : DB) (uid cid : String) : ℕ :=
  (db.class_shares.filter
    (fun p => p.2.user_id == uid && p.2.class_id == cid && p.2.active)).length

/-- A class with no students, as stored in the owner's document. -/
def c5classC1 : JVal := .obj (JObj.ofList
  [("id", .str "c1"), ("name", .str "Class 1"),
   ("students", .arr .nil), ("subjects", .arr .nil)])

/-- The owner's document for the share-invariant scenario. -/
def c5doc : JVal := .obj (JObj.ofList
  [("teacherName", .str "T"), ("classes", .arr (JArr.ofList [c5classC1])),
   ("categories", .arr .nil)])

/-- The owner's account record. -/
def c5user : User := ⟨"u1", "alice", "a@b.c", "h0", some "s0", 0⟩

/-- A share for class c1, still active but already past its expiry 10. -/
def c5share1 : Share := ⟨"u1", "c1", "Class 1", "T", 0, some 10, true, JVal.null,
  [], some ⟨0, 9, JVal.null⟩⟩

/-- The same share after the write-path sweep marked it inactive. -/
def c5share1x : Share := ⟨"u1", "c1", "Class 1", "T", 0, some 10, false, JVal.null,
  [], some ⟨0, 9, JVal.null⟩⟩

/-- Initial store: the account, a session, the encrypted document and the
expired-but-active share s1. -/
def c5db0 : DB := ⟨[("a@b.c", c5user)], [("tok", ⟨"u1", 0, 100000⟩)],
  [("u1", .encrypted ⟨0, 5, c5doc⟩)], [("s1", c5share1)]⟩

/-- Memory for the share-invariant scenario. -/
def c5mem : Mem := ⟨[("tok", 5)], []⟩

/-- After a document write at time 20, `update_active_shares_for_user`
deactivates the expired share s1 (but keeps it in the store). -/
def c5db1 : DB := update_active_shares_for_user c5db0 "u1" c5doc 9 (fun _ => 0) 20

/-- Creating a second share s2 for the same class now succeeds, since the
duplicate check only counts active shares. -/
def c5created : CreateShareResult × DB × Mem :=
  api_create_share c5db1 c5mem "tok" 20 9 "c1" 24 JVal.null "s2"
    (fun _ => 0) (fun _ => 0) 3

/-- The store holding the inactive s1 and the freshly created active s2. -/
def c5db2 : DB := c5created.2.1

/-- Updating s1's expiry re-activates it unconditionally, yielding two
active shares for (u1, c1). -/
def c5db3 : DB := (api_update_share c5db2 "tok" 20 "s1" none (some 24)).2

/-- The decrypted snapshot of the pin-regeneration scenario's share. -/
def c6snap : JVal := .obj (JObj.ofList
  [("students", .arr (JArr.ofList [.obj (JObj.ofList
      [("id", .str "st1"), ("name", .str "Ann"), ("grades", .arr .nil)])])),
   ("categories", .arr .nil), ("subjects", .arr .nil),
   ("plusMinusGradeSettings", .null)])

/-- An active share with one student whose current pin is 000001. -/
def c6share : Share := ⟨"u1", "c1", "C", "T", 0, some 100000, true, JVal.null,
  [("st1", ⟨⟨0, "000001"⟩, "Ann"⟩)], some ⟨0, 9, c6snap⟩⟩

/-- The account owning the scenario share. -/
def c6user : User := ⟨"u1", "alice", "a@b.c", "h0", some "s0", 0⟩

/-- Store for the pin-regeneration scenario. -/
def c6db : DB := ⟨[("a@b.c", c6user)], [("tok", ⟨"u1", 0, 3600⟩)], [],
  [("s6", c6share)]⟩

/-- The scenario share after regeneration draws the same pin 000001 again
(the generator never excludes previously issued pins). -/
def c6share2 : Share := ⟨"u1", "c1", "C", "T", 0, some 100000, true, JVal.null,
  [("st1", ⟨⟨7, "000001"⟩, "Ann"⟩)], some ⟨0, 9, c6snap⟩⟩

/-- The store after the colliding regeneration. -/
def c6db2 : DB := ⟨[("a@b.c", c6user)], [("tok", ⟨"u1", 0, 3600⟩)], [],
  [("s6", c6share2)]⟩

/-- A student record used by the share-creation pin witness. -/
def c6studA : JVal := .obj (JObj.ofList [("id", .str "a"), ("name", .str "A")])

/-- A second student record used by the share-creation pin witness. -/
def c6studB : JVal := .obj (JObj.ofList [("id", .str "b"), ("name", .str "B")])

-- ============ HELPER LEMMAS ============

theorem lookupA_eq_none {V : Type} (l : List (String × V)) (k : String)
    (h : k ∉ l.map Prod.fst) : lookupA l k = none := by
  induction l with
  | nil => rfl
  | cons p tl ih =>
    simp only [List.map_cons, List.mem_cons] at h
    push_neg at h
    have hne : ¬ p.1 = k := fun hc => h.1 hc.symm
    simp only [lookupA, if_neg hne, ih h.2]

theorem lookupA_mem {V : Type} (l : List (String × V)) (k : String) (v : V)
    (h : lookupA l k = some v) : (k, v) ∈ l := by
  induction l with
  | nil => simp [lookupA] at h
  | cons p tl ih =>
    simp only [lookupA] at h
    split at h
    · rename_i heq
      obtain rfl := Option.some.inj h
      simp [← heq]
    · exact List.mem_cons_of_mem _ (ih h)

theorem lookupA_insertA_self {V : Type} (l : List (String × V)) (k : String) (v : V) :
    lookupA (insertA l k v) k = some v := by
  induction l with
  | nil => simp [insertA, lookupA]
  | cons p tl ih =>
    by_cases h : p.1 = k
    · simp [insertA, lookupA, h]
    · simp [insertA, lookupA, h, ih]

theorem lookupA_updateA_self {V : Type} (l : List (String × V)) (k : String) (f : V → V) :
    lookupA (updateA l k f) k = (lookupA l k).map f := by
  induction l with
  | nil => simp [updateA, lookupA]
  | cons p tl ih =>
    by_cases h : p.1 = k
    · simp [updateA, lookupA, h]
    · simp [updateA, lookupA, h, ih]

theorem mem_insertA {V : Type} (l : List (String × V)) (k : String) (v : V) :
    ∀ q ∈ insertA l k v, q = (k, v) ∨ q ∈ l := by
  induction l with
  | nil => intro q hq; simp [insertA] at hq; left; exact hq
  | cons p tl ih =>
    intro q hq
    by_cases h : p.1 = k
    · rw [show insertA (p :: tl) k v = (p.1, v) :: tl by simp [insertA, h]] at hq
      rcases List.mem_cons.mp hq with h1 | h1
      · left; rw [h1, h]
      · right; exact List.mem_cons_of_mem _ h1
    · rw [show insertA (p :: tl) k v = p :: insertA tl k v by simp [insertA, h]] at hq
      rcases List.mem_cons.mp hq with h1 | h1
      · right; rw [h1]; exact List.mem_cons_self _ _
      · rcases ih q h1 with h2 | h2
        · left; exact h2
        · right; exact List.mem_cons_of_mem _ h2

theorem insertA_of_lookup_none {V : Type} (l : List (String × V)) (k : String) (v : V)
    (h : lookupA l k = none) : insertA l k v = l ++ [(k, v)] := by
  induction l with
  | nil => rfl
  | cons p tl ih =>
    simp only [lookupA] at h
    split at h
    · cases h
    · rename_i hne
      simp [insertA, hne, ih h]

theorem lookupA_eraseA_ne {V : Type} (l : List (String × V)) (k k' : String)
    (h : k' ≠ k) : lookupA (eraseA l k) k' = lookupA l k' := by
  induction l with
  | nil => rfl
  | cons p tl ih =>
    obtain ⟨k0, v0⟩ := p
    by_cases hp : k0 = k
    · subst hp
      have hne : ¬ k0 = k' := fun hc => h hc.symm
      simp [eraseA, lookupA, hne]
    · by_cases hq : k0 = k'
      · simp [eraseA, lookupA, hp, hq, h]
      · simp [eraseA, lookupA, hp, hq, ih]

theorem keys_eraseA_sublist {V : Type} (l : List (String × V)) (k : String) :
    ((eraseA l k).map Prod.fst).Sublist (l.map Prod.fst) := by
  induction l with
  | nil => simp [eraseA]
  | cons p tl ih =>
    by_cases hp : p.1 = k
    · simp only [eraseA, if_pos hp, List.map_cons]
      exact List.sublist_cons_of_sublist _ (List.Sublist.refl _)
    · simp only [eraseA, if_neg hp, List.map_cons]
      exact List.Sublist.cons₂ _ ih

theorem nodup_keys_eraseA {V : Type} (l : List (String × V)) (k : String)
    (h : (l.map Prod.fst).Nodup) : ((eraseA l k).map Prod.fst).Nodup :=
  (keys_eraseA_sublist l k).nodup h

theorem lookupA_eraseA_self {V : Type} (l : List (String × V)) (k : String)
    (h : (l.map Prod.fst).Nodup) : lookupA (eraseA l k) k = none := by
  induction l with
  | nil => rfl
  | cons p tl ih =>
    simp only [List.map_cons, List.nodup_cons] at h
    by_cases hp : p.1 = k
    · simp only [eraseA, if_pos hp]
      exact lookupA_eq_none tl k (hp ▸ h.1)
    · simp only [eraseA, if_neg hp, lookupA, if_neg hp]
      exact ih h.2

theorem lookupA_foldl_eraseA_not_mem {V : Type} :
    ∀ (ts : List String) (l : List (String × V)) (k : String), k ∉ ts →
      lookupA (ts.foldl (fun acc t => eraseA acc t) l) k = lookupA l k := by
  intro ts
  induction ts with
  | nil => intro l k _; rfl
  | cons t rest ih =>
    intro l k hk
    simp only [List.mem_cons] at hk
    push_neg at hk
    simp only [List.foldl_cons]
    rw [ih (eraseA l t) k hk.2, lookupA_eraseA_ne l t k hk.1]

theorem lookupA_foldl_eraseA_mem {V : Type} :
    ∀ (ts : List String) (l : List (String × V)) (k : String), k ∈ ts →
      (l.map Prod.fst).Nodup →
      lookupA (ts.foldl (fun acc t => eraseA acc t) l) k = none := by
  intro ts
  induction ts with
  | nil => intro l k hk; cases hk
  | cons t rest ih =>
    intro l k hk hN
    simp only [List.foldl_cons]
    by_cases hmem : k ∈ rest
    · exact ih (eraseA l t) k hmem (nodup_keys_eraseA l t hN)
    · have hkt : k = t := by
        rcases List.mem_cons.mp hk with h | h
        · exact h
        · exact absurd h hmem
      rw [lookupA_foldl_eraseA_not_mem rest (eraseA l t) k hmem, hkt]
      exact lookupA_eraseA_self l t hN

theorem foldl_min_mem (xs : List Time) : ∀ x : Time, xs.foldl min x ∈ x :: xs := by
  induction xs with
  | nil => intro x; simp
  | cons y ys ih =>
    intro x
    simp only [List.foldl_cons]
    rcases List.mem_cons.mp (ih (min x y)) with h1 | h1
    · rw [h1]
      rcases min_choice x y with hm | hm
      · rw [hm]; exact List.mem_cons_self _ _
      · rw [hm]; exact List.mem_cons_of_mem _ (List.mem_cons_self _ _)
    · exact List.mem_cons_of_mem _ (List.mem_cons_of_mem _ h1)

theorem listMin_mem (xs : List Time) (h : xs ≠ []) : listMin xs ∈ xs := by
  cases xs with
  | nil => exact absurd rfl h
  | cons x tl => exact foldl_min_mem tl x

theorem foldl_erase_sessions_proj (ts : List String) :
    ∀ d : DB, ts.foldl (fun d t => { d with sessions := eraseA d.sessions t }) d =
      { d with sessions := ts.foldl (fun acc t => eraseA acc t) d.sessions } := by
  induction ts with
  | nil => intro d; rfl
  | cons t rest ih =>
    intro d
    simp only [List.foldl_cons]
    rw [ih]

theorem api_verify_pin_congr (db1 db2 : DB) (h : db1.class_shares = db2.class_shares)
    (mk : ℕ) (now : Time) (tok pin : String) :
    api_verify_pin db1 mk now tok pin = api_verify_pin db2 mk now tok pin := by
  simp only [api_verify_pin, h]

theorem activeSharesFor_pos_iff (db : DB) (uid cid : String) :
    0 < activeSharesFor db uid cid ↔
      db.class_shares.any
        (fun p => p.2.user_id == uid && p.2.class_id == cid && p.2.active) = true := by
  rw [activeSharesFor, List.length_pos, Ne, List.filter_eq_nil_iff, List.any_eq_true]
  push_neg
  constructor
  · rintro ⟨x, hx, hpx⟩; exact ⟨x, hx, hpx⟩
  · rintro ⟨x, hx, hpx⟩; exact ⟨x, hx, hpx⟩

theorem activeSharesFor_insert_fresh (db : DB) (stok : String) (sh : Share)
    (hfresh : lookupA db.class_shares stok = none) (uid cid : String) :
    activeSharesFor { db with class_shares := (insertA db.class_shares stok sh) } uid cid =
      activeSharesFor db uid cid +
        (if sh.user_id == uid && sh.class_id == cid && sh.active then 1 else 0) := by
  simp only [activeSharesFor]
  rw [insertA_of_lookup_none _ _ _ hfresh, List.filter_append, List.length_append]
  congr 1
  by_cases hp : (sh.user_id == uid && sh.class_id == cid && sh.active) = true
  · simp [List.filter_cons, hp]
  · rw [Bool.not_eq_true] at hp
    simp [List.filter_cons, hp]

theorem digitChar_isDigit (d : ℕ) (h : d < 10) : (Nat.digitChar d).isDigit = true := by
  interval_cases d <;> decide

theorem sixDigitPin_toPin (n : ℕ) : sixDigitPin (toPin n) = true := by
  have h1 : ∀ k : ℕ, (Nat.digitChar (k % 10)).isDigit = true := fun k =>
    digitChar_isDigit _ (Nat.mod_lt _ (by decide))
  simp [sixDigitPin, toPin, String.length, String.toList, h1]
  intro hc
  have h2 := congrArg String.data hc
  simp at h2

theorem sixDigitPin_drawPin (rng : ℕ → ℕ) (i : ℕ) :
    sixDigitPin (drawPin rng i) = true :=
  sixDigitPin_toPin _

theorem genPinLoop_some (existing : List String) (rng : ℕ → ℕ) :
    ∀ (fuel i : ℕ) (pin : String) (i1 : ℕ),
      genPinLoop existing rng fuel i = some (pin, i1) →
      pin ∉ existing ∧ sixDigitPin pin = true := by
  intro fuel
  induction fuel with
  | zero => intro i pin i1 h; cases h
  | succ f ih =>
    intro i pin i1 h
    simp only [genPinLoop] at h
    by_cases hm : drawPin rng i ∈ existing
    · rw [if_pos hm] at h
      exact ih _ _ _ h
    · rw [if_neg hm] at h
      obtain ⟨hp, -⟩ := Prod.mk.injEq _ _ _ _ ▸ Option.some.inj h
      rw [← hp]
      exact ⟨hm, sixDigitPin_drawPin rng i⟩

theorem genPinLoop_none (existing : List String) (rng : ℕ → ℕ) :
    ∀ (fuel i : ℕ), (∀ j, j < fuel → drawPin rng (i + j) ∈ existing) →
      genPinLoop existing rng fuel i = none := by
  intro fuel
  induction fuel with
  | zero => intro i _; rfl
  | succ f ih =>
    intro i hall
    have h0 : drawPin rng i ∈ existing := by
      have hx := hall 0 (Nat.succ_pos f)
      simpa using hx
    simp only [genPinLoop, if_pos h0]
    apply ih
    intro j hj
    have hx := hall (j + 1) (by omega)
    rw [show i + (j + 1) = i + 1 + j by omega] at hx
    exact hx

theorem mem_map_snd_insertA {V : Type} (l : List (String × V)) (k : String) (v : V) :
    ∀ w ∈ (insertA l k v).map Prod.snd, w = v ∨ w ∈ l.map Prod.snd := by
  intro w hw
  obtain ⟨q, hq, hqe⟩ := List.mem_map.mp hw
  rcases mem_insertA l k v q hq with h | h
  · left; rw [← hqe, h]
  · right; exact List.mem_map.mpr ⟨q, h, hqe⟩

theorem nodup_map_snd_insertA {V : Type} (l : List (String × V)) (k : String) (v : V)
    (hv : ∀ p ∈ l, p.2 ≠ v) (h : (l.map Prod.snd).Nodup) :
    ((insertA l k v).map Prod.snd).Nodup := by
  induction l with
  | nil => simp [insertA]
  | cons p tl ih =>
    obtain ⟨k0, v0⟩ := p
    simp only [List.map_cons, List.nodup_cons] at h
    by_cases hk : k0 = k
    · simp only [insertA, if_pos hk, List.map_cons, List.nodup_cons]
      refine ⟨?_, h.2⟩
      intro hmem
      obtain ⟨q, hq, hqv⟩ := List.mem_map.mp hmem
      exact hv q (List.mem_cons_of_mem _ hq) hqv
    · simp only [insertA, if_neg hk, List.map_cons, List.nodup_cons]
      refine ⟨?_, ih (fun p hp => hv p (List.mem_cons_of_mem _ hp)) h.2⟩
      intro hmem
      rcases mem_map_snd_insertA tl k v v0 hmem with h2 | h2
      · exact hv (k0, v0) (List.mem_cons_self _ _) h2
      · exact h.1 h2

theorem buildPins_spec (rng salts : ℕ → ℕ) :
    ∀ (studs : List JVal) (i : ℕ) (existing : List String)
      (entries : List (String × StudentPinEntry)) (clear : List (String × String))
      (entries2 : List (String × StudentPinEntry)) (clear2 : List (String × String)),
      buildPins rng salts studs i existing entries clear = .ok entries2 clear2 →
      (clear.map Prod.snd).Nodup →
      (∀ p ∈ clear, p.2 ∈ existing ∧ sixDigitPin p.2 = true) →
      (clear2.map Prod.snd).Nodup ∧ (∀ p ∈ clear2, sixDigitPin p.2 = true) := by
  intro studs
  induction studs with
  | nil =>
    intro i existing entries clear e2 c2 h hN hP
    simp only [buildPins, PinsOut.ok.injEq] at h
    rw [← h.2]
    exact ⟨hN, fun p hp => (hP p hp).2⟩
  | cons s rest ih =>
    intro i existing entries clear e2 c2 h hN hP
    rcases hid : jGet s "id" with _ | v
    · simp only [buildPins, hid] at h
      cases h
    rcases v with _ | b | q | sid | xs | fs
    · simp only [buildPins, hid] at h; cases h
    · simp only [buildPins, hid] at h; cases h
    · simp only [buildPins, hid] at h; cases h
    · rcases hgen : generate_unique_pin existing rng i with _ | ⟨pin, i1⟩
      · simp only [buildPins, hid, hgen] at h
        cases h
      · simp only [buildPins, hid, hgen] at h
        have hpin : pin ∉ existing ∧ sixDigitPin pin = true :=
          genPinLoop_some existing rng 1000 i pin i1 hgen
        refine ih i1 (pin :: existing) _ _ e2 c2 h ?_ ?_
        · exact nodup_map_snd_insertA clear sid pin
            (fun p hp hc => hpin.1 (hc ▸ (hP p hp).1)) hN
        · intro p hp
          rcases mem_insertA clear sid pin p hp with h2 | h2
          · rw [h2]
            exact ⟨List.mem_cons_self _ _, hpin.2⟩
          · exact ⟨List.mem_cons_of_mem _ (hP p h2).1, (hP p h2).2⟩
    · simp only [buildPins, hid] at h; cases h
    · simp only [buildPins, hid] at h; cases h

theorem regenLoop_spec (rng salts : ℕ → ℕ) :
    ∀ (studs : List (String × StudentPinEntry)) (i : ℕ) (existing : List String)
      (accE : List (String × StudentPinEntry)) (accP : List (String × String × String))
      (entries : List (String × StudentPinEntry)) (pins : List (String × String × String)),
      regenLoop rng salts studs i existing accE accP = some (entries, pins) →
      ∃ sE sP,
        entries = accE ++ sE ∧ pins = accP ++ sP ∧
        sE.map Prod.fst = studs.map Prod.fst ∧
        sE.map (fun e => e.2.pin_hash.pin) = sP.map (fun t => t.2.2) ∧
        (sP.map (fun t => t.2.2)).Nodup ∧
        (∀ q ∈ sP.map (fun t => t.2.2), q ∉ existing ∧ sixDigitPin q = true) := by
  intro studs
  induction studs with
  | nil =>
    intro i existing accE accP entries pins h
    simp only [regenLoop, Option.some.injEq, Prod.mk.injEq] at h
    exact ⟨[], [], by simp [← h.1], by simp [← h.2], by simp, by simp, by simp, by simp⟩
  | cons p0 rest ih =>
    obtain ⟨sid, info⟩ := p0
    intro i existing accE accP entries pins h
    rcases hgen : generate_unique_pin existing rng i with _ | ⟨pin, i1⟩
    · simp only [regenLoop, hgen] at h
      cases h
    · simp only [regenLoop, hgen] at h
      have hpin : pin ∉ existing ∧ sixDigitPin pin = true :=
        genPinLoop_some existing rng 1000 i pin i1 hgen
      obtain ⟨sE, sP, hE, hP, hkeys, hmap, hnd, hprops⟩ := ih i1 (pin :: existing) _ _ _ _ h
      refine ⟨(sid, { info with pin_hash := hash_pin pin (salts accE.length) }) :: sE,
        (sid, info.name, pin) :: sP, ?_, ?_, ?_, ?_, ?_, ?_⟩
      · simp [hE]
      · simp [hP]
      · simp [hkeys]
      · simp [hash_pin, hmap]
      · simp only [List.map_cons, List.nodup_cons]
        refine ⟨fun hc => (hprops pin hc).1 (List.mem_cons_self _ _), hnd⟩
      · intro q hq
        rcases List.mem_cons.mp hq with h2 | h2
        · rw [h2]
          exact ⟨hpin.1, hpin.2⟩
        · exact ⟨fun hc => (hprops q h2).1 (List.mem_cons_of_mem _ hc), (hprops q h2).2⟩

-- ============ CLAIM THEOREMS ============

/-- C1: for every JSON-serializable document and every key, decryption with
the encryption key recovers the document exactly; decryption with any other
key fails AEAD authentication (the idealized `InvalidTag`) and that failure
is surfaced to the caller as the empty-dict sentinel instead of a raised
exception. -/
theorem c1_encrypt_decrypt_roundtrip (d : JVal) (k1 k2 nonce : ℕ) (hk : k1 ≠ k2) :
    decrypt_user_data (encrypt_user_data d k1 nonce) k1 = d ∧
    aesgcmDecrypt (encrypt_user_data d k1 nonce) k2 = none ∧
    decrypt_user_data (encrypt_user_data d k1 nonce) k2 = emptyDoc := by
  refine ⟨?_, ?_, ?_⟩ <;>
    simp [decrypt_user_data, encrypt_user_data, aesgcmDecrypt, hk]

/-- Witness for C1 at the default document and the concrete keys 3 and 4. -/
theorem c1_encrypt_decrypt_roundtrip_witness :
    decrypt_user_data (encrypt_user_data defaultUserData 3 7) 3 = defaultUserData ∧
    aesgcmDecrypt (encrypt_user_data defaultUserData 3 7) 4 = none ∧
    decrypt_user_data (encrypt_user_data defaultUserData 3 7) 4 = emptyDoc :=
  c1_encrypt_decrypt_roundtrip defaultUserData 3 4 7 (by decide)

/-- C7: at the ceiling of 5 requests per 60 seconds, a request finding 5
surviving timestamps in the trailing window is rejected with a retry delay
computed from the oldest surviving timestamp and that delay is positive;
every allowed request appends the current timestamp to the pruned sequence;
and once the window has fully elapsed since all tracked requests, a new
request is allowed. -/
theorem c7_rate_limit_window (stored : List Time) (now : Time) :
    (5 ≤ (stored.filter (fun ts => decide (now - 60 < ts))).length →
      (check_rate_limit 5 60 stored now).1 = false ∧
      (check_rate_limit 5 60 stored now).2.1 =
        listMin (stored.filter (fun ts => decide (now - 60 < ts))) + 60 - now + 1 ∧
      0 < (check_rate_limit 5 60 stored now).2.1) ∧
    ((check_rate_limit 5 60 stored now).1 = true →
      (check_rate_limit 5 60 stored now).2.2 =
        stored.filter (fun ts => decide (now - 60 < ts)) ++ [now]) ∧
    ((∀ ts ∈ stored, ts ≤ now - 60) → (check_rate_limit 5 60 stored now).1 = true) := by
  refine ⟨?_, ?_, ?_⟩
  · intro h5
    have hne : stored.filter (fun ts => decide (now - 60 < ts)) ≠ [] := by
      intro hnil
      rw [hnil] at h5
      simp at h5
    have hmem := listMin_mem _ hne
    have hlt : now - 60 < listMin (stored.filter (fun ts => decide (now - 60 < ts))) := by
      have := List.of_mem_filter hmem
      exact of_decide_eq_true this
    refine ⟨by simp [check_rate_limit, h5], by simp [check_rate_limit, h5], ?_⟩
    have : (check_rate_limit 5 60 stored now).2.1 =
        listMin (stored.filter (fun ts => decide (now - 60 < ts))) + 60 - now + 1 := by
      simp [check_rate_limit, h5]
    rw [this]
    linarith
  · intro hallow
    by_cases h5 : 5 ≤ (stored.filter (fun ts => decide (now - 60 < ts))).length
    · exfalso
      have : (check_rate_limit 5 60 stored now).1 = false := by
        simp [check_rate_limit, h5]
      rw [this] at hallow
      cases hallow
    · simp [check_rate_limit, h5]
  · intro hall
    have hfil : stored.filter (fun ts => decide (now - 60 < ts)) = [] := by
      apply List.filter_eq_nil_iff.mpr
      intro ts hts
      simpa using not_lt.mpr (hall ts hts)
    simp [check_rate_limit, hfil]

/-- Witness for C7: 5 requests at seconds 1..5 block a 6th at second 6 with a
positive delay; an allowed request appends its timestamp; a request a full
window after the last tracked one is allowed. -/
theorem c7_rate_limit_window_witness :
    (check_rate_limit 5 60 [1, 2, 3, 4, 5] 6).1 = false ∧
    0 < (check_rate_limit 5 60 [1, 2, 3, 4, 5] 6).2.1 ∧
    (check_rate_limit 5 60 [10] 20).2.2 = [10, 20] ∧
    (check_rate_limit 5 60 [0] 60).1 = true := by
  refine ⟨((c7_rate_limit_window [1, 2, 3, 4, 5] 6).1 (by decide)).1,
    ((c7_rate_limit_window [1, 2, 3, 4, 5] 6).1 (by decide)).2.2, ?_,
    (c7_rate_limit_window [0] 60).2.2 (by decide)⟩
  have h := (c7_rate_limit_window [10] 20).2.1 (by decide)
  rw [h]
  decide

/-- C8: a session resolves to its owning account whenever its expiry has not
passed (in particular immediately after creation), resolves to none strictly
after the expiry instant, the empty and unknown tokens resolve to none, and
resolution leaves the persisted store (hence the stored expiry) unchanged —
no sliding renewal. -/
theorem c8_session_resolution (db : DB) (token : String) (now : Time) :
    (∀ s u, token ≠ "" → lookupA db.sessions token = some s →
        ¬ s.expires_at < now → findUserById db s.user_id = some u →
        get_user_from_token db token now = some ⟨u.id, u.username, u.email⟩) ∧
    (∀ s, lookupA db.sessions token = some s → s.expires_at < now →
        get_user_from_token db token now = none) ∧
    get_user_from_token db "" now = none ∧
    (lookupA db.sessions token = none → get_user_from_token db token now = none) ∧
    (resolveSessionOp db token now).2 = db := by
  refine ⟨?_, ?_, by simp [get_user_from_token], ?_, rfl⟩
  · intro s u ht hs hexp hu
    simp [get_user_from_token, ht, hs, hexp, hu]
  · intro s hs hexp
    by_cases ht : token = ""
    · simp [get_user_from_token, ht]
    · simp [get_user_from_token, ht, hs, hexp]
  · intro h
    by_cases ht : token = ""
    · simp [get_user_from_token, ht]
    · simp [get_user_from_token, ht, h]

/-- Witness for C8 on a concrete store: resolution at the creation instant,
strictly after expiry, on the empty token, and on an unknown token. -/
theorem c8_session_resolution_witness :
    get_user_from_token c8db "tok" 0 = some ⟨"u1", "alice", "a@b.c"⟩ ∧
    get_user_from_token c8db "tok" 3601 = none ∧
    get_user_from_token c8db "" 5 = none ∧
    get_user_from_token c8db "garbage" 5 = none ∧
    (resolveSessionOp c8db "tok" 0).2 = c8db := by
  refine ⟨?_, ?_, (c8_session_resolution c8db "" 5).2.2.1, ?_,
    (c8_session_resolution c8db "tok" 0).2.2.2.2⟩
  · exact (c8_session_resolution c8db "tok" 0).1 ⟨"u1", 0, 3600⟩ c8user
      (by decide) (by decide) (by decide) (by decide)
  · exact (c8_session_resolution c8db "tok" 3601).2.1 ⟨"u1", 0, 3600⟩
      (by decide) (by decide)
  · exact (c8_session_resolution c8db "garbage" 5).2.2.2.1 (by decide)

/-- C2 (counterexample): in a state whose cache has no entry for the session
token, a successful `save_user_data` updates the persisted ciphertext but
creates no cache entry, and the next `get` within the heartbeat window does
invoke the store's load — refuting the claim that every successful write
leaves the cache entry holding the new document and that a get within H
seconds skips the load. -/
theorem c2_counterexample :
    save_user_data c2db c2mem "u1" c2newDoc (some 5) (some "tok") 1 100 =
      some (c2dbAfter, c2mem) ∧
    lookupA c2mem.user_data_cache "tok" = none ∧
    (get_user_data_cached c2dbAfter c2mem "u1" "tok" (some 5) 110).2.2 = true ∧
    (get_user_data_cached c2dbAfter c2mem "u1" "tok" (some 5) 110).1 = c2newDoc := by
  decide

/-- C2 (amended): after a successful write the persisted store holds the new
ciphertext; when a cache entry for the session token already exists, it is
updated in place with the new document and a refreshed heartbeat, and a get
within the heartbeat window returns exactly that document without invoking
the store's load. -/
theorem c2_put_updates_store_and_cache (db : DB) (m : Mem) (uid tok : String)
    (doc : JVal) (k nonce : ℕ) (tput tget : Time) (e : CacheEntry)
    (htok : tok ≠ "")
    (hcache : lookupA m.user_data_cache tok = some e)
    (hwin : tget - tput < HEARTBEAT_TIMEOUT) :
    ∃ db1 m1,
      save_user_data db m uid doc (some k) (some tok) nonce tput = some (db1, m1) ∧
      lookupA db1.user_data uid = some (.encrypted (encrypt_user_data doc k nonce)) ∧
      lookupA m1.user_data_cache tok =
        some { e with data := doc, last_heartbeat := tput } ∧
      get_user_data_cached db1 m1 uid tok (some k) tget = (doc, m1, false) := by
  have hsome : (lookupA m.user_data_cache tok).isSome = true := by rw [hcache]; rfl
  have hcond : tok ≠ "" ∧ (lookupA m.user_data_cache tok).isSome = true := ⟨htok, hsome⟩
  refine ⟨{ db with user_data :=
      (insertA db.user_data uid (.encrypted (encrypt_user_data doc k nonce))) },
    { m with user_data_cache :=
      (updateA m.user_data_cache tok
        (fun e0 => { e0 with data := doc, last_heartbeat := tput })) }, ?_, ?_, ?_, ?_⟩
  · simp only [save_user_data, if_pos hcond]
  · exact lookupA_insertA_self _ _ _
  · rw [lookupA_updateA_self, hcache]; rfl
  · have hl : lookupA (updateA m.user_data_cache tok
        (fun e0 => { e0 with data := doc, last_heartbeat := tput })) tok =
        some { e with data := doc, last_heartbeat := tput } := by
      rw [lookupA_updateA_self, hcache]; rfl
    simp [get_user_data_cached, hl, hwin]

/-- Witness for the amended C2 on a concrete state with a live cache entry. -/
theorem c2_put_updates_store_and_cache_witness :
    ∃ db1 m1,
      save_user_data c2db c2memWith "u1" c2newDoc (some 5) (some "tok") 1 100 =
        some (db1, m1) ∧
      lookupA db1.user_data "u1" = some (.encrypted (encrypt_user_data c2newDoc 5 1)) ∧
      lookupA m1.user_data_cache "tok" = some ⟨c2newDoc, "u1", 100⟩ ∧
      get_user_data_cached db1 m1 "u1" "tok" (some 5) 110 = (c2newDoc, m1, false) :=
  c2_put_updates_store_and_cache c2db c2memWith "u1" "tok" c2newDoc 5 1 100 110
    ⟨c2oldDoc, "u1", 90⟩ (by decide) (by decide) (by decide)

/-- C3 (code bug evidence): deleting the account removes the document, the
session and the user record, yet the in-memory encryption-key entry for the
session token survives — `api_delete_account` never calls
`clear_session_cache`, unlike logout and the expiry sweep, both of which do
destroy the key as the claim demands. -/
theorem c3_delete_account_key_survives :
    (api_delete_account c3db c3mem "tok" 10).1 = .ok ∧
    (api_delete_account c3db c3mem "tok" 10).2.2 = c3mem ∧
    get_encryption_key_for_session
      (api_delete_account c3db c3mem "tok" 10).2.2 "tok" = some 5 ∧
    get_encryption_key_for_session (logout_user c3db c3mem "tok").2 "tok" = none ∧
    get_encryption_key_for_session
      (cleanup_expired_sessions c3db c3mem 4000).2 "tok" = none := by
  decide

/-- C10: on GET /api/data, when the cached/decrypted lookup yields a falsy
result while the session holds an encryption key, the handler answers with
the default document and persists it encrypted under that key, overwriting
the previously stored ciphertext for the user. -/
theorem c10_get_data_default (db : DB) (m : Mem) (token : String) (now : Time)
    (nonce k : ℕ) (u : UserInfo)
    (hu : get_user_from_token db token now = some u)
    (hkey : get_encryption_key_for_session m token = some k)
    (hempty : jtruthy (get_user_data_cached db m u.id token (some k) now).1 = false) :
    (api_get_data db m token now nonce).1 = .ok defaultUserData ∧
    lookupA (api_get_data db m token now nonce).2.1.user_data u.id =
      some (.encrypted (encrypt_user_data defaultUserData k nonce)) := by
  simp only [api_get_data, hu, hkey, hempty, save_user_data, Bool.false_eq_true,
    if_false]
  exact ⟨trivial, lookupA_insertA_self _ _ _⟩

/-- Witness for C10: a document encrypted under key 99 read with session key
5 decrypts to the empty sentinel, and the handler then stores the default
document under key 5. -/
theorem c10_get_data_default_witness :
    (api_get_data c10db c10mem "tok" 10 7).1 = .ok defaultUserData ∧
    lookupA (api_get_data c10db c10mem "tok" 10 7).2.1.user_data "u1" =
      some (.encrypted (encrypt_user_data defaultUserData 5 7)) :=
  c10_get_data_default c10db c10mem "tok" 10 7 5 ⟨"u1", "alice", "a@b.c"⟩
    (by decide) (by decide) (by decide)

/-- C4 (counterexample): for a token with no share and a malformed pin, the
handler answers InvalidPin (400), not InvalidAccessLink (404) — the pin
format is checked before the share is even looked up, so the claim's first
case (no share implies InvalidAccessLink) is false. -/
theorem c4_counterexample :
    lookupA c4db.class_shares "nosuch" = none ∧
    api_verify_pin c4db 9 100 "nosuch" "12" = .invalidPin ∧
    api_verify_pin c4db 9 100 "nosuch" "12" ≠ .invalidAccessLink := by
  decide

/-- C4 (amended): PIN verification checks, in this order: InvalidPin (400)
when the input is not exactly six digits; then InvalidAccessLink (404) when
no share exists under the token; then AccessRevoked (403) when the share is
inactive; then AccessExpired (403) when it is past expires_at; then
WrongPin (401) when no student's stored hash matches. -/
theorem c4_verify_pin_error_order (db : DB) (mk : ℕ) (now : Time) (tok pin : String) :
    (sixDigitPin pin = false → api_verify_pin db mk now tok pin = .invalidPin) ∧
    (sixDigitPin pin = true → lookupA db.class_shares tok = none →
      api_verify_pin db mk now tok pin = .invalidAccessLink) ∧
    (∀ share, sixDigitPin pin = true → lookupA db.class_shares tok = some share →
      share.active = false → api_verify_pin db mk now tok pin = .accessRevoked) ∧
    (∀ share exp, sixDigitPin pin = true → lookupA db.class_shares tok = some share →
      share.active = true → share.expires_at = some exp → exp < now →
      api_verify_pin db mk now tok pin = .accessExpired) ∧
    (∀ share, sixDigitPin pin = true → lookupA db.class_shares tok = some share →
      share.active = true →
      (∀ exp, share.expires_at = some exp → ¬ exp < now) →
      share.students.find? (fun p => verify_pin p.2.pin_hash pin) = none →
      api_verify_pin db mk now tok pin = .wrongPin) := by
  refine ⟨?_, ?_, ?_, ?_, ?_⟩
  · intro hpin
    simp [api_verify_pin, hpin]
  · intro hpin hs
    simp [api_verify_pin, hpin, hs]
  · intro share hpin hs hact
    simp [api_verify_pin, hpin, hs, hact]
  · intro share exp hpin hs hact hexp hlt
    simp [api_verify_pin, hpin, hs, hact, hexp, hlt]
  · intro share hpin hs hact hnx hfind
    rcases hexp2 : share.expires_at with _ | exp
    · simp [api_verify_pin, hpin, hs, hact, hexp2, hfind]
    · have hnl : ¬ exp < now := hnx exp hexp2
      simp [api_verify_pin, hpin, hs, hact, hexp2, hnl, hfind]

/-- Witness for the amended C4, exercising each of the five cases on
concrete stores. -/
theorem c4_verify_pin_error_order_witness :
    api_verify_pin c4db 9 100 "sA" "12" = .invalidPin ∧
    api_verify_pin c4db 9 100 "nope" "111111" = .invalidAccessLink ∧
    api_verify_pin c4db 9 100 "sI" "111111" = .accessRevoked ∧
    api_verify_pin c4db 9 100 "sE" "111111" = .accessExpired ∧
    api_verify_pin c4db 9 100 "sA" "654321" = .wrongPin := by
  refine ⟨(c4_verify_pin_error_order c4db 9 100 "sA" "12").1 (by decide),
    (c4_verify_pin_error_order c4db 9 100 "nope" "111111").2.1 (by decide) (by decide),
    (c4_verify_pin_error_order c4db 9 100 "sI" "111111").2.2.1 c4shareInactive
      (by decide) (by decide) (by decide),
    (c4_verify_pin_error_order c4db 9 100 "sE" "111111").2.2.2.1 c4shareExpired 10
      (by decide) (by decide) (by decide) (by decide) (by decide),
    (c4_verify_pin_error_order c4db 9 100 "sA" "654321").2.2.2.2 c4shareActive
      (by decide) (by decide) (by decide) ?_ (by decide)⟩
  intro exp h
  have h2 : some (1000 : ℤ) = some exp := h
  have h3 := Option.some.inj h2
  rw [← h3]
  decide

/-- C9: deleting an account removes its document, its sessions and the user
record (under the dict invariant that stored keys are unique), but leaves
the class-shares table untouched, so PIN verification — which reads only
the shares — behaves exactly as before the deletion until expiry or the
sweep intervene. -/
theorem c9_delete_account_frame (db : DB) (m : Mem) (token : String) (now : Time) :
    (api_delete_account db m token now).2.1.class_shares = db.class_shares ∧
    (∀ mk now2 stok pin,
      api_verify_pin (api_delete_account db m token now).2.1 mk now2 stok pin =
        api_verify_pin db mk now2 stok pin) ∧
    (∀ u, get_user_from_token db token now = some u →
      (db.user_data.map Prod.fst).Nodup →
      lookupA (api_delete_account db m token now).2.1.user_data u.id = none) ∧
    (∀ u, get_user_from_token db token now = some u →
      (db.sessions.map Prod.fst).Nodup →
      ∀ st s, lookupA (api_delete_account db m token now).2.1.sessions st = some s →
        s.user_id ≠ u.id) ∧
    (∀ u, get_user_from_token db token now = some u →
      (db.users.map Prod.fst).Nodup →
      lookupA (api_delete_account db m token now).2.1.users u.email = none) := by
  have hshares : (api_delete_account db m token now).2.1.class_shares = db.class_shares := by
    cases hres : get_user_from_token db token now with
    | none => simp [api_delete_account, hres]
    | some u =>
      simp only [api_delete_account, hres]
      rw [foldl_erase_sessions_proj]
  refine ⟨hshares, fun mk now2 stok pin => api_verify_pin_congr _ _ hshares mk now2 stok pin,
    ?_, ?_, ?_⟩
  · intro u hres hN
    simp only [api_delete_account, hres]
    rw [foldl_erase_sessions_proj]
    exact lookupA_eraseA_self _ _ hN
  · intro u hres hN st s hlook
    simp only [api_delete_account, hres] at hlook
    rw [foldl_erase_sessions_proj] at hlook
    simp only at hlook
    by_cases hmem : st ∈ (List.filter (fun p => p.2.user_id == u.id)
        (eraseA db.user_data u.id, db.sessions, db.class_shares, db.users).2.1).map Prod.fst
    · exfalso
      rw [lookupA_foldl_eraseA_mem _ _ _ (by exact hmem) hN] at hlook
      cases hlook
    · rw [lookupA_foldl_eraseA_not_mem _ _ _ hmem] at hlook
      intro huid
      apply hmem
      have hpair := lookupA_mem _ _ _ hlook
      have : (st, s) ∈ List.filter (fun p => p.2.user_id == u.id) db.sessions :=
        List.mem_filter.mpr ⟨hpair, by simp [huid]⟩
      exact List.mem_map.mpr ⟨(st, s), this, rfl⟩
  · intro u hres hN
    simp only [api_delete_account, hres]
    rw [foldl_erase_sessions_proj]
    exact lookupA_eraseA_self _ _ hN

/-- Witness for C9 on a concrete store with an account, session, document
and share. -/
theorem c9_delete_account_frame_witness :
    lookupA (api_delete_account c9db c9mem "tok9" 10).2.1.user_data "u9" = none ∧
    (∀ st s, lookupA (api_delete_account c9db c9mem "tok9" 10).2.1.sessions st = some s →
      s.user_id ≠ "u9") ∧
    lookupA (api_delete_account c9db c9mem "tok9" 10).2.1.users "b@b.c" = none := by
  have h := c9_delete_account_frame c9db c9mem "tok9" 10
  exact ⟨h.2.2.1 ⟨"u9", "bob", "b@b.c"⟩ (by decide) (by decide),
    fun st s hl => h.2.2.2.1 ⟨"u9", "bob", "b@b.c"⟩ (by decide) (by decide) st s hl,
    h.2.2.2.2 ⟨"u9", "bob", "b@b.c"⟩ (by decide) (by decide)⟩

/-- C5 (counterexample): starting from a reachable store with one active
(expired) share s1 for (u1, c1), the write-path sweep deactivates s1, a
second share s2 for the same class is then created (the duplicate check
only sees active shares), and updating s1's expiry re-activates it — two
active shares for the same (account, class) pair, refuting the claimed
invariant through `api_update_share`'s unconditional re-activation. -/
theorem c5_counterexample :
    activeSharesFor c5db0 "u1" "c1" = 1 ∧
    activeSharesFor c5db1 "u1" "c1" = 0 ∧
    c5created.1 = CreateShareResult.ok "s2" 86420 [] ∧
    activeSharesFor c5db2 "u1" "c1" = 1 ∧
    (api_update_share c5db2 "tok" 20 "s1" none (some 24)).1 = .ok ∧
    activeSharesFor c5db3 "u1" "c1" = 2 := by
  decide

/-- C5 (amended): createShare alone maintains the invariant — it refuses
with ShareAlreadyExists whenever, the request being otherwise valid, an
active share for the (account, class) pair exists; a successful creation
implies no active share existed and leaves exactly one, other pairs
untouched (for a fresh share token).  But updateShare's expiry change
re-activates its share unconditionally, which can introduce a second
active share for the same pair (see the counterexample). -/
theorem c5_share_invariant (db : DB) (m : Mem) (token : String) (now : Time)
    (mk : ℕ) (cid : String) (eh : ℤ) (vis : JVal) (stok : String)
    (rng salts : ℕ → ℕ) (nonce : ℕ) (u : UserInfo)
    (hu : get_user_from_token db token now = some u) :
    (cid ≠ "" →
      jtruthy (get_user_data_cached db m u.id token
        (get_encryption_key_for_session m token) now).1 = true →
      (∃ cls, findClass (get_user_data_cached db m u.id token
        (get_encryption_key_for_session m token) now).1 cid = some cls) →
      0 < activeSharesFor db u.id cid →
      (api_create_share db m token now mk cid eh vis stok rng salts nonce).1 =
        .shareExists ∧
      (api_create_share db m token now mk cid eh vis stok rng salts nonce).2.1 = db) ∧
    (∀ st e p,
      (api_create_share db m token now mk cid eh vis stok rng salts nonce).1 = .ok st e p →
      activeSharesFor db u.id cid = 0) ∧
    (∀ st e p db1 m1,
      api_create_share db m token now mk cid eh vis stok rng salts nonce =
        (.ok st e p, db1, m1) →
      lookupA db.class_shares stok = none →
      activeSharesFor db1 u.id cid = 1 ∧
      (∀ uid2 cid2, ¬ (uid2 = u.id ∧ cid2 = cid) →
        activeSharesFor db1 uid2 cid2 = activeSharesFor db uid2 cid2)) ∧
    (∀ s h, lookupA db.class_shares stok = some s → s.user_id = u.id →
      (api_update_share db token now stok none (some h)).1 = .ok ∧
      lookupA (api_update_share db token now stok none (some h)).2.class_shares stok =
        some { s with expires_at := some (now + h * 3600), active := true }) := by
  refine ⟨?_, ?_, ?_, ?_⟩
  · rintro hcid hdata ⟨cls, hcls⟩ hpos
    have hany : db.class_shares.any
        (fun p => p.2.user_id == u.id && p.2.class_id == cid && p.2.active) = true :=
      (activeSharesFor_pos_iff db u.id cid).mp hpos
    constructor <;> simp [api_create_share, hu, hcid, hdata, hcls, hany]
  · intro st e p h
    by_cases hcid : cid = ""
    · simp [api_create_share, hu, hcid] at h
    by_cases hdata : jtruthy (get_user_data_cached db m u.id token
        (get_encryption_key_for_session m token) now).1 = true
    swap
    · rw [Bool.not_eq_true] at hdata
      simp [api_create_share, hu, hcid, hdata] at h
    rcases hcls : findClass (get_user_data_cached db m u.id token
        (get_encryption_key_for_session m token) now).1 cid with _ | cls
    · simp [api_create_share, hu, hcid, hdata, hcls] at h
    by_cases hany : db.class_shares.any
        (fun p => p.2.user_id == u.id && p.2.class_id == cid && p.2.active) = true
    · simp [api_create_share, hu, hcid, hdata, hcls, hany] at h
    · have : ¬ 0 < activeSharesFor db u.id cid :=
        fun hp => hany ((activeSharesFor_pos_iff db u.id cid).mp hp)
      omega
  · intro st e p db1 m1 h hfresh
    by_cases hcid : cid = ""
    · simp [api_create_share, hu, hcid] at h
    by_cases hdata : jtruthy (get_user_data_cached db m u.id token
        (get_encryption_key_for_session m token) now).1 = true
    swap
    · rw [Bool.not_eq_true] at hdata
      simp [api_create_share, hu, hcid, hdata] at h
    rcases hcls : findClass (get_user_data_cached db m u.id token
        (get_encryption_key_for_session m token) now).1 cid with _ | cls
    · simp [api_create_share, hu, hcid, hdata, hcls] at h
    by_cases hany : db.class_shares.any
        (fun p => p.2.user_id == u.id && p.2.class_id == cid && p.2.active) = true
    · simp [api_create_share, hu, hcid, hdata, hcls, hany] at h
    rw [Bool.not_eq_true] at hany
    cases hpins : buildPins rng salts (jElems (jGetD cls "students" (.arr .nil)))
        0 [] [] [] with
    | exhausted => simp [api_create_share, hu, hcid, hdata, hcls, hany, hpins] at h
    | badStudent => simp [api_create_share, hu, hcid, hdata, hcls, hany, hpins] at h
    | ok entries clear =>
      cases hsnap : build_share_snapshot (get_user_data_cached db m u.id token
          (get_encryption_key_for_session m token) now).1 cid with
      | none => simp [api_create_share, hu, hcid, hdata, hcls, hany, hpins, hsnap] at h
      | some snap =>
        simp only [api_create_share, hu, hcid, hdata, hcls, hany, hpins, hsnap,
          Bool.not_true, Bool.false_eq_true, if_false, if_neg, ite_false,
          Prod.mk.injEq] at h
        have hcount0 : activeSharesFor db u.id cid = 0 := by
          have hnp : ¬ 0 < activeSharesFor db u.id cid := fun hp => by
            rw [activeSharesFor_pos_iff, hany] at hp
            cases hp
          omega
        constructor
        · rw [← h.2.1, activeSharesFor_insert_fresh db stok _ hfresh]
          simp [hcount0]
        · intro uid2 cid2 hne
          rw [← h.2.1, activeSharesFor_insert_fresh db stok _ hfresh]
          rcases not_and_or.mp hne with h2 | h2
          · have hb : (u.id == uid2) = false := by
              rw [beq_eq_false_iff_ne]
              exact fun hc => h2 hc.symm
            simp [hb]
          · have hb : (cid == cid2) = false := by
              rw [beq_eq_false_iff_ne]
              exact fun hc => h2 hc.symm
            simp [hb]
  · intro s h hs hown
    constructor <;>
      simp [api_update_share, hu, hs, hown, lookupA_insertA_self]

/-- Witness for the amended C5 on the concrete scenario stores: refusal
while s1 is active, successful creation once it is inactive (count going
from 0 to 1), and the re-activating update going through. -/
theorem c5_share_invariant_witness :
    (api_create_share c5db0 c5mem "tok" 5 9 "c1" 24 JVal.null "sX"
      (fun _ => 0) (fun _ => 0) 3).1 = .shareExists ∧
    activeSharesFor c5db1 "u1" "c1" = 0 ∧
    activeSharesFor c5created.2.1 "u1" "c1" = 1 ∧
    (api_update_share c5db2 "tok" 20 "s1" none (some 24)).1 = .ok := by
  refine ⟨?_, ?_, ?_, ?_⟩
  · exact ((c5_share_invariant c5db0 c5mem "tok" 5 9 "c1" 24 JVal.null "sX"
      (fun _ => 0) (fun _ => 0) 3 ⟨"u1", "alice", "a@b.c"⟩ (by decide)).1
      (by decide) (by decide) ⟨c5classC1, by decide⟩ (by decide)).1
  · exact (c5_share_invariant c5db1 c5mem "tok" 20 9 "c1" 24 JVal.null "s2"
      (fun _ => 0) (fun _ => 0) 3 ⟨"u1", "alice", "a@b.c"⟩ (by decide)).2.1
      "s2" 86420 [] (by decide)
  · have hok : api_create_share c5db1 c5mem "tok" 20 9 "c1" 24 JVal.null "s2"
        (fun _ => 0) (fun _ => 0) 3 =
        (c5created.1, c5created.2.1, c5created.2.2) := rfl
    have h1 : c5created.1 = CreateShareResult.ok "s2" 86420 [] := by decide
    rw [h1] at hok
    exact ((c5_share_invariant c5db1 c5mem "tok" 20 9 "c1" 24 JVal.null "s2"
      (fun _ => 0) (fun _ => 0) 3 ⟨"u1", "alice", "a@b.c"⟩ (by decide)).2.2.1
      "s2" 86420 [] c5created.2.1 c5created.2.2 hok (by decide)).1
  · exact ((c5_share_invariant c5db2 c5mem "tok" 20 9 "c1" 24 JVal.null "s1"
      (fun _ => 0) (fun _ => 0) 3 ⟨"u1", "alice", "a@b.c"⟩ (by decide)).2.2.2
      c5share1x 24 (by decide) (by decide)).1

/-- C6 (counterexample): regeneration never excludes the previously issued
pins — with a randomness draw that repeats the student's old pin 000001,
every pin_hash is replaced yet the old pin still verifies afterwards,
refuting the claim that all previous PINs subsequently fail verify. -/
theorem c6_counterexample :
    (api_regenerate_pins c6db "tok" 10 "s6" (fun _ => 1) (fun _ => 7)).1 =
      RegenPinsResult.ok [("st1", "Ann", "000001")] ∧
    api_verify_pin (api_regenerate_pins c6db "tok" 10 "s6" (fun _ => 1) (fun _ => 7)).2
      9 10 "s6" "000001" = .ok "st1" "Ann" (.arr .nil) := by
  decide

/-- C6 (amended): the retry loop raises once 1000 consecutive draws collide
with the existing set; share creation issues pairwise distinct zero-padded
six-digit pins; and a successful regeneration replaces every student
entry's pin_hash with the hash of a freshly drawn pin, the new pins being
pairwise distinct six-digit strings, so that an old PIN subsequently fails
verification against every entry unless it coincides with one of the newly
generated pins. -/
theorem c6_pin_generation :
    (∀ (existing : List String) (rng : ℕ → ℕ) (i : ℕ),
      (∀ j, j < 1000 → drawPin rng (i + j) ∈ existing) →
      generate_unique_pin existing rng i = none) ∧
    (∀ (rng salts : ℕ → ℕ) (studs : List JVal)
      (entries : List (String × StudentPinEntry)) (clear : List (String × String)),
      buildPins rng salts studs 0 [] [] [] = .ok entries clear →
      (clear.map Prod.snd).Nodup ∧ ∀ p ∈ clear, sixDigitPin p.2 = true) ∧
    (∀ (db : DB) (token : String) (now : Time) (stok : String) (rng salts : ℕ → ℕ)
      (pins : List (String × String × String)) (db2 : DB),
      api_regenerate_pins db token now stok rng salts = (.ok pins, db2) →
      (pins.map (fun t => t.2.2)).Nodup ∧
      (∀ t ∈ pins, sixDigitPin t.2.2 = true) ∧
      (∃ share share2, lookupA db.class_shares stok = some share ∧
        lookupA db2.class_shares stok = some share2 ∧
        share2.students.map Prod.fst = share.students.map Prod.fst ∧
        share2.students.map (fun e => e.2.pin_hash.pin) = pins.map (fun t => t.2.2) ∧
        (∀ oldp, oldp ∉ pins.map (fun t => t.2.2) →
          ∀ e ∈ share2.students, verify_pin e.2.pin_hash oldp = false))) := by
  refine ⟨?_, ?_, ?_⟩
  · intro existing rng i hall
    exact genPinLoop_none existing rng 1000 i hall
  · intro rng salts studs entries clear h
    exact buildPins_spec rng salts studs 0 [] [] [] entries clear h
      (by simp) (by simp)
  · intro db token now stok rng salts pins db2 h
    cases hres : get_user_from_token db token now with
    | none => simp [api_regenerate_pins, hres] at h
    | some u =>
      cases hs : lookupA db.class_shares stok with
      | none => simp [api_regenerate_pins, hres, hs] at h
      | some share =>
        by_cases hown : share.user_id = u.id
        swap
        · simp [api_regenerate_pins, hres, hs, hown] at h
        by_cases hact : share.active = true
        swap
        · rw [Bool.not_eq_true] at hact
          simp [api_regenerate_pins, hres, hs, hown, hact] at h
        cases hloop : regenLoop rng salts share.students 0 [] [] [] with
        | none => simp [api_regenerate_pins, hres, hs, hown, hact, hloop] at h
        | some r =>
          obtain ⟨entries, pl⟩ := r
          have hown2 : (share.user_id ≠ u.id) = False := by simp [hown]
          have hact2 : (!share.active) = false := by simp [hact]
          simp only [api_regenerate_pins, hres, hs, hown2, hact2, hloop,
            Bool.false_eq_true, if_false, ite_false, Prod.mk.injEq,
            RegenPinsResult.ok.injEq] at h
          obtain ⟨sE, sP, hE, hP, hkeys, hmap, hnd, hprops⟩ :=
            regenLoop_spec rng salts share.students 0 [] [] [] entries pl hloop
          simp only [List.nil_append] at hE hP
          have hpins : pins = sP := by rw [← h.1, hP]
          have hdb2 : lookupA db2.class_shares stok =
              some { share with students := entries } := by
            rw [← h.2]
            exact lookupA_insertA_self _ _ _
          refine ⟨?_, ?_, share, { share with students := entries }, ?_, ?_, ?_, ?_, ?_⟩
          · rw [hpins]; exact hnd
          · intro t ht
            rw [hpins] at ht
            exact (hprops t.2.2 (List.mem_map.mpr ⟨t, ht, rfl⟩)).2
          · rfl
          · exact hdb2
          · rw [hE]
            exact hkeys
          · rw [hE, hpins, hmap]
          · intro oldp hold e he
            rw [hE] at he
            have hepin : e.2.pin_hash.pin ∈ sP.map (fun t => t.2.2) := by
              rw [← hmap]
              exact List.mem_map.mpr ⟨e, he, rfl⟩
            have hne : e.2.pin_hash.pin ≠ oldp := by
              intro hc
              rw [hpins] at hold
              exact hold (hc ▸ hepin)
            simp only [verify_pin]
            exact beq_eq_false_iff_ne.mpr hne

/-- Witness for the amended C6: a constant colliding oracle exhausts the
budget; creation for two students yields the distinct six-digit pins
000000 and 000001; the concrete regeneration yields a distinct six-digit
pin list, replaces the stored hash and fails verification for any pin
other than the freshly issued ones. -/
theorem c6_pin_generation_witness :
    generate_unique_pin ["000000"] (fun _ => 0) 0 = none ∧
    ((([("a", "000000"), ("b", "000001")] : List (String × String)).map Prod.snd).Nodup ∧
      ∀ p ∈ ([("a", "000000"), ("b", "000001")] : List (String × String)),
        sixDigitPin p.2 = true) ∧
    ((([("st1", "Ann", "000001")] : List (String × String × String)).map
        (fun t => t.2.2)).Nodup ∧
      (∀ t ∈ ([("st1", "Ann", "000001")] : List (String × String × String)),
        sixDigitPin t.2.2 = true) ∧
      (∃ share share2, lookupA c6db.class_shares "s6" = some share ∧
        lookupA c6db2.class_shares "s6" = some share2 ∧
        share2.students.map Prod.fst = share.students.map Prod.fst ∧
        share2.students.map (fun e => e.2.pin_hash.pin) =
          ([("st1", "Ann", "000001")] : List (String × String × String)).map
            (fun t => t.2.2) ∧
        (∀ oldp, oldp ∉ ([("st1", "Ann", "000001")] :
            List (String × String × String)).map (fun t => t.2.2) →
          ∀ e ∈ share2.students, verify_pin e.2.pin_hash oldp = false))) := by
  refine ⟨c6_pin_generation.1 ["000000"] (fun _ => 0) 0 ?_,
    c6_pin_generation.2.1 (fun i => i) (fun _ => 7) [c6studA, c6studB]
      [("a", ⟨⟨7, "000000"⟩, "A"⟩), ("b", ⟨⟨7, "000001"⟩, "B"⟩)]
      [("a", "000000"), ("b", "000001")] (by decide),
    c6_pin_generation.2.2 c6db "tok" 10 "s6" (fun _ => 1) (fun _ => 7)
      [("st1", "Ann", "000001")] c6db2 (by decide)⟩
  intro j hj
  have h0 : drawPin (fun _ => (0 : ℕ)) (0 + j) = drawPin (fun _ => (0 : ℕ)) 0 := rfl
  rw [h0]
  decide

end EduGrade
